import Mathlib

/-!
# Verification of `robot_state_publisher` (src/robot_state_publisher.cpp)

A shallow embedding of `RobotStatePublisher` from
`src/src/robot_state_publisher.cpp`.  Conventions of the embedding:

* `std::map<std::string, V>` is modelled as an association list
  `List (String × V)` with distinct keys; `map::insert` is `insertA`,
  which — like `std::map::insert` — is a no-op when the key is already
  present; `map::find` is `lookupA`.  C++ `std::map` iterates in key
  order; every theorem below is proved for an arbitrary order of a
  distinct-key list, which subsumes the sorted order.
* KDL rigid transforms are opaque to this code: the only operation used
  is `segment.pose(angle)` followed by `tf2::kdlToTransform`.  We model
  the composite as a function `pose : Rat → Rat` attached to each
  segment (`Rat` standing for an opaque transform value); `double` is
  modelled as `Rat`.
* `boost::try_to_lock` acquisition is modelled by an explicit Boolean
  parameter `lockOk` giving the outcome of the non-blocking attempt.
* `ros::Time` / `ros::Duration` are modelled as `Rat`; `Time::now()`
  becomes an explicit `now` parameter.
* Logging macros (`ROS_DEBUG`, `ROS_WARN_THROTTLE`, …) have no effect
  on program state or output and are not modelled.
-/

set_option autoImplicit false

namespace RSP

/-- Model of `KDL::Joint::JointType`: `None` means a structurally fixed joint;
the remaining constructors are the moving KDL joint kinds. -/
inductive KDLJointType where
  | None
  | RotAxis
  | RotX
  | RotY
  | RotZ
  | TransAxis
  | TransX
  | TransY
  | TransZ
deriving DecidableEq, Repr

/-- Model of `KDL::Joint`: name and kinematic type (the only fields this code reads). -/
structure KDLJoint where
  name : String
  type : KDLJointType

/-- Model of `KDL::Segment`: segment name, its joint, and the pose map
`angle ↦ tf2::kdlToTransform(segment.pose(angle))` (opaque transform
values modelled as `Rat`). -/
structure Segment where
  name : String
  joint : KDLJoint
  pose : Rat → Rat

/-- Model of `robot_state_publisher::SegmentPair`: constructed as
`SegmentPair(segment, root, child.getName())` in `addChildren`. -/
structure SegmentPair where
  segment : Segment
  root : String
  tip : String

/-- Model of `urdf::JointMimic`: source joint name, multiplier, offset. -/
structure JointMimic where
  joint_name : String
  multiplier : Rat
  offset : Rat
deriving DecidableEq, Repr

/-- The `urdf::Joint` kinematic types (`type` field). -/
inductive UrdfJointType where
  | REVOLUTE
  | CONTINUOUS
  | PRISMATIC
  | FLOATING
  | PLANAR
  | FIXED
  | UNKNOWN
deriving DecidableEq, Repr

/-- Model of `urdf::Joint`: the two fields this code reads. -/
structure UrdfJoint where
  type : UrdfJointType
  mimic : Option JointMimic
deriving DecidableEq, Repr

/-- Model of `urdf::Model`: its `joints_` map (name → joint), modelled as an
association list with distinct keys. -/
structure UrdfModel where
  joints_ : List (String × UrdfJoint)
deriving DecidableEq, Repr

/-! ## Association-list model of `std::map` -/

/-- Model of `std::map::find`: first value bound to key `k`. -/
def lookupA {α : Type} (k : String) : List (String × α) → Option α
  | [] => Option.none
  | (k₀, v₀) :: rest => if k₀ = k then some v₀ else lookupA k rest

/-- Model of `std::map::insert(make_pair(k, v))`: inserts only when `k` is absent
(an existing binding is never overwritten). -/
def insertA {α : Type} (k : String) (v : α) (l : List (String × α)) :
    List (String × α) :=
  match lookupA k l with
  | some _ => l
  | Option.none => l ++ [(k, v)]

/-- Keys of an association list. -/
def keysA {α : Type} (l : List (String × α)) : List String :=
  l.map Prod.fst

/-! ## The KDL tree

A `KDL::Tree` element is a segment together with its list of children
(`GetTreeElementChildren`).  The children vector is encoded by the
mutually inductive `TreeList` so that the recursive walk of
`addChildren` is structural. -/

mutual
inductive Tree : Type where
  | mk : Segment → TreeList → Tree
inductive TreeList : Type where
  | nil : TreeList
  | cons : Tree → TreeList → TreeList
end

/-- The segment stored at a tree element (`GetTreeElementSegment`). -/
def Tree.seg : Tree → Segment
  | .mk s _ => s

/-! ## Tree Builder: `RobotStatePublisher::addChildren` -/

/-- The two segment tables: `segments_fixed_` (fixed joints) and
`segments_` (moving joints). -/
structure Tables where
  segments_fixed_ : List (String × SegmentPair)
  segments_ : List (String × SegmentPair)

/-- The empty tables, the state after `segments_.clear()` /
`segments_fixed_.clear()` (and at `init()`). -/
def emptyTables : Tables := ⟨[], []⟩

/-- The check `model_.getJoint(name) && model_.getJoint(name)->type == urdf::Joint::FLOATING`:
the body model classifies the joint as floating (false when the joint is
absent from the model, as a null `getJoint` result fails the `&&`). -/
def isFloatingInModel (m : UrdfModel) (jointName : String) : Bool :=
  match lookupA jointName m.joints_ with
  | some j => j.type = UrdfJointType.FLOATING
  | Option.none => false

/-- The loop body of `addChildren` for one parent→child edge: build
`SegmentPair(child, root, child.getName())` and insert it into the
fixed table (KDL type `None`, not floating in the model), into the
moving table (any other KDL type), or into neither (floating). -/
def stepTables (m : UrdfModel) (st : Tables) (root : String)
    (child : Segment) : Tables :=
  let s : SegmentPair := ⟨child, root, child.name⟩
  if child.joint.type = KDLJointType.None then
    if isFloatingInModel m child.joint.name then st
    else { st with segments_fixed_ := insertA child.joint.name s st.segments_fixed_ }
  else { st with segments_ := insertA child.joint.name s st.segments_ }

mutual
/-- Model of `RobotStatePublisher::addChildren`: recursive walk from a tree
element, classifying each child edge with `stepTables` and recursing
into every child regardless of classification. -/
def addChildren (m : UrdfModel) : Tree → Tables → Tables
  | .mk seg children, st => addChildrenL m seg.name children st
/-- The `for` loop over the children vector inside `addChildren`. -/
def addChildrenL (m : UrdfModel) (root : String) : TreeList → Tables → Tables
  | .nil, st => st
  | .cons c cs, st =>
      addChildrenL m root cs (addChildren m c (stepTables m st root c.seg))
end

/-- One parent→child edge of the tree: parent segment name and child segment. -/
structure Edge where
  root : String
  child : Segment

mutual
/-- All parent→child edges below a tree element, in the visit order of
`addChildren` (edge first, then the child's subtree). -/
def edgesT : Tree → List Edge
  | .mk seg children => edgesL seg.name children
/-- Edges contributed by a children list under parent `root`. -/
def edgesL (root : String) : TreeList → List Edge
  | .nil => []
  | .cons c cs => ⟨root, c.seg⟩ :: (edgesT c ++ edgesL root cs)
end

/-- Restatement of `addChildren` as a fold of the per-edge classification over the edge
list (proved equal to `addChildren` below). -/
def foldTables (m : UrdfModel) (es : List Edge) (st : Tables) : Tables :=
  es.foldl (fun st e => stepTables m st e.root e.child) st

/-! ## Mimic Resolver -/

/-- Model of `RobotStatePublisher::setJointMimicMap`: rebuild `mimic_` from
scratch, inserting every joint of the model that declares a mimic
relation, keyed by the dependent joint's own name.  (The exclusive
`mimic_mtx_` lock is blocking — `boost::unique_lock` without
`try_to_lock` — so it has no skip branch to model.) -/
def setJointMimicMap (model : UrdfModel) : List (String × JointMimic) :=
  model.joints_.foldl
    (fun mm j =>
      match j.2.mimic with
      | some mi => insertA j.1 mi mm
      | Option.none => mm)
    []

/-- The loop of `RobotStatePublisher::getJointMimicPositions`: for every
mimic entry in order, if the source joint's position is present in the
(current) batch, insert `sourcePos * multiplier + offset` under the
dependent joint's name (`std::map::insert`: never overwriting). -/
def expandMimic (mimic_ : List (String × JointMimic))
    (joint_positions : List (String × Rat)) : List (String × Rat) :=
  mimic_.foldl
    (fun jp i =>
      match lookupA i.2.joint_name jp with
      | some pos => insertA i.1 (pos * i.2.multiplier + i.2.offset) jp
      | Option.none => jp)
    joint_positions

/-- Model of `RobotStatePublisher::getJointMimicPositions`: non-blocking shared
acquisition of `mimic_mtx_` (outcome `lockOk`); on failure return
`false` leaving the batch unmodified (modelled as `none`), otherwise
run the expansion loop. -/
def getJointMimicPositions (lockOk : Bool)
    (mimic_ : List (String × JointMimic))
    (joint_positions : List (String × Rat)) : Option (List (String × Rat)) :=
  if lockOk then some (expandMimic mimic_ joint_positions) else Option.none

/-! ## Publisher -/

/-- Model of `stripSlash`: drop one leading `'/'` when the string is nonempty and
starts with it; otherwise return the string unchanged. -/
def stripSlash (s : String) : String :=
  match s.data with
  | '/' :: rest => String.mk rest
  | _ => s

/-- A published `geometry_msgs::TransformStamped`: stamp, the
slash-stripped parent (`header.frame_id`) and child frame, and the
transform value (`tf2::kdlToTransform(segment.pose(angle))`). -/
structure TfStamped where
  stamp : Rat
  frame_id : String
  child_frame_id : String
  transform : Rat
deriving DecidableEq, Repr

/-- The transform built for one matched moving joint in
`publishTransforms`. -/
def movingTf (s : SegmentPair) (pos time : Rat) : TfStamped :=
  { stamp := time
    frame_id := stripSlash s.root
    child_frame_id := stripSlash s.tip
    transform := s.segment.pose pos }

/-- The loop of `publishTransforms` over the joint-position batch:
a batch entry whose name is found in `segments_` contributes one
transform; an entry with no matching segment only logs a throttled
warning and contributes nothing. -/
def publishLoop (segments_ : List (String × SegmentPair)) :
    List (String × Rat) → Rat → List TfStamped
  | [], _ => []
  | (n, pos) :: rest, time =>
      match lookupA n segments_ with
      | some s => movingTf s pos time :: publishLoop segments_ rest time
      | Option.none => publishLoop segments_ rest time

/-- The two transform sinks: `tf_broadcaster_` (dynamic) and
`static_tf_broadcaster_` (latched/static). -/
inductive Channel where
  | dynamic
  | tfStatic
deriving DecidableEq, Repr

/-- The member state of `RobotStatePublisher` that this file models. -/
structure RSPState where
  initialized_ : Bool
  segments_ : List (String × SegmentPair)
  segments_fixed_ : List (String × SegmentPair)
  mimic_ : List (String × JointMimic)
  urdf_changed_ : Bool

/-- Model of `RobotStatePublisher::publishTransforms`: non-blocking attempt on
`m_swapMutex` (outcome `lockOk`); on failure return with nothing sent
and the state untouched; on success send one batch built by the loop
over the joint positions to the dynamic sink. -/
def publishTransforms (lockOk : Bool) (st : RSPState)
    (joint_positions : List (String × Rat)) (time : Rat) :
    Option (Channel × List TfStamped) × RSPState :=
  if lockOk then
    (some (Channel.dynamic, publishLoop st.segments_ joint_positions time), st)
  else (Option.none, st)

/-- The transform built for one fixed segment in
`publishFixedTransforms`: pose evaluated at angle 0, stamped `now`,
advanced by 0.5 s when not using the static channel. -/
def fixedTf (use_tf_static : Bool) (now : Rat)
    (seg : String × SegmentPair) : TfStamped :=
  { stamp := if use_tf_static then now else now + (1 : Rat) / 2
    frame_id := stripSlash seg.2.root
    child_frame_id := stripSlash seg.2.tip
    transform := seg.2.segment.pose 0 }

/-- Model of `RobotStatePublisher::publishFixedTransforms`: non-blocking attempt
on `m_swapMutex`; on failure return with nothing sent and the state
untouched; on success send one transform per fixed segment, routed to
the static sink when `use_tf_static` and to the dynamic sink otherwise. -/
def publishFixedTransforms (lockOk : Bool) (now : Rat) (st : RSPState)
    (use_tf_static : Bool) : Option (Channel × List TfStamped) × RSPState :=
  if lockOk then
    (some (if use_tf_static then Channel.tfStatic else Channel.dynamic,
           st.segments_fixed_.map (fixedTf use_tf_static now)), st)
  else (Option.none, st)

/-- Model of `RobotStatePublisher::onURDFSwap`: no-op unless initialized;
otherwise clear both segment tables, rebuild them by walking the (new)
tree, rebuild the mimic map from the new model snapshot when one is
retrievable (`getUrdfPtr`), keep the prior mimic map otherwise, and set
the pending-republish flag.  The swapped-in tree (`RobotKDLTree`
internals, outside this file) is the `tree` argument; the `model_`
member checked for floating joints is the `m` argument. -/
def onURDFSwap (st : RSPState) (m : UrdfModel) (tree : Tree)
    (urdf_ptr : Option UrdfModel) : RSPState :=
  if st.initialized_ then
    let tables := addChildren m tree emptyTables
    { st with
      segments_ := tables.segments_
      segments_fixed_ := tables.segments_fixed_
      mimic_ := match urdf_ptr with
        | some u => setJointMimicMap u
        | Option.none => st.mimic_
      urdf_changed_ := true }
  else st

/-- Model of `RobotStatePublisher::setRobotDescriptionIfChanged`: when the
pending-republish flag is set, clear it and republish all fixed
transforms on the static channel (`publishFixedTransforms(true)`, which
itself makes a non-blocking lock attempt with outcome `lockOk`);
otherwise do nothing.  (`setRobotDescription()` republishes the URDF
string on a side channel and carries no transform payload; it is not
modelled.) -/
def setRobotDescriptionIfChanged (lockOk : Bool) (now : Rat)
    (st : RSPState) : Option (Channel × List TfStamped) × RSPState :=
  if st.urdf_changed_ then
    publishFixedTransforms lockOk now { st with urdf_changed_ := false } true
  else (Option.none, st)

/-! ## Lemmas about the association-list operations -/

lemma lookupA_cons {α : Type} (k : String) (v : α) (l : List (String × α))
    (n : String) :
    lookupA n ((k, v) :: l) = if k = n then some v else lookupA n l := rfl

lemma lookupA_append {α : Type} (l l' : List (String × α)) (n : String) :
    lookupA n (l ++ l') = (lookupA n l).or (lookupA n l') := by
  induction l with
  | nil => rfl
  | cons p rest ih =>
    obtain ⟨k, v⟩ := p
    by_cases h : k = n <;> simp [lookupA_cons, h, ih]

lemma lookupA_eq_none_iff {α : Type} (l : List (String × α)) (n : String) :
    lookupA n l = Option.none ↔ n ∉ keysA l := by
  induction l with
  | nil => simp [lookupA, keysA]
  | cons p rest ih =>
    obtain ⟨k, v⟩ := p
    by_cases h : k = n
    · subst h
      simp [lookupA_cons, keysA]
    · have hnk : ¬ n = k := fun hc => h hc.symm
      simp [lookupA_cons, h, keysA, hnk, ih]

lemma lookupA_insertA_of_some {α : Type} {l : List (String × α)}
    {n : String} {w : α} (k : String) (v : α)
    (h : lookupA n l = some w) :
    lookupA n (insertA k v l) = some w := by
  unfold insertA
  cases hk : lookupA k l with
  | some _ => exact h
  | none => rw [lookupA_append, h]; rfl

lemma lookupA_insertA_ne {α : Type} {k n : String} (v : α)
    (l : List (String × α)) (h : k ≠ n) :
    lookupA n (insertA k v l) = lookupA n l := by
  unfold insertA
  cases hk : lookupA k l with
  | some _ => rfl
  | none =>
    rw [lookupA_append]
    simp [lookupA_cons, h]
    cases lookupA n l <;> rfl

lemma lookupA_insertA_self {α : Type} {k : String} {l : List (String × α)}
    (v : α) (h : lookupA k l = Option.none) :
    lookupA k (insertA k v l) = some v := by
  unfold insertA
  rw [h, lookupA_append, h]
  simp [lookupA_cons]

lemma keysA_insertA_nodup {α : Type} (k : String) (v : α)
    {l : List (String × α)} (h : (keysA l).Nodup) :
    (keysA (insertA k v l)).Nodup := by
  unfold insertA
  cases hk : lookupA k l with
  | some _ => exact h
  | none =>
    have hmem : k ∉ keysA l := (lookupA_eq_none_iff l k).mp hk
    have hkeys : keysA (l ++ [(k, v)]) = keysA l ++ [k] := by simp [keysA]
    rw [hkeys]
    refine List.Nodup.append h (List.nodup_singleton k) ?_
    intro a ha hak
    rw [List.mem_singleton] at hak
    exact hmem (hak ▸ ha)

lemma mem_insertA {α : Type} {p : String × α} {k : String} {v : α}
    {l : List (String × α)} (h : p ∈ insertA k v l) :
    p ∈ l ∨ p = (k, v) := by
  unfold insertA at h
  split at h
  · exact Or.inl h
  · rcases List.mem_append.mp h with h₁ | h₂
    · exact Or.inl h₁
    · exact Or.inr (List.mem_singleton.mp h₂)

/-! ## Characterizing the tables built by `addChildren` -/

/-- The joint name keying a tree edge. -/
def edgeName (e : Edge) : String := e.child.joint.name

/-- The edge is classified fixed by `addChildren`: KDL kinematic type
`None` and not floating in the body model. -/
def fixedEdge (m : UrdfModel) (e : Edge) : Bool :=
  decide (e.child.joint.type = KDLJointType.None)
    && !(isFloatingInModel m e.child.joint.name)

/-- The edge is classified moving by `addChildren`: any KDL kinematic
type other than `None`. -/
def movingEdge (e : Edge) : Bool :=
  !(decide (e.child.joint.type = KDLJointType.None))

/-- The `SegmentPair` an edge is stored as. -/
def mkSP (e : Edge) : SegmentPair := ⟨e.child, e.root, e.child.name⟩

lemma find?_cons_pos {α : Type} (p : α → Bool) (a : α) (l : List α)
    (h : p a = true) : (a :: l).find? p = some a := by
  simp [List.find?, h]

lemma find?_cons_neg {α : Type} (p : α → Bool) (a : α) (l : List α)
    (h : p a = false) : (a :: l).find? p = l.find? p := by
  simp [List.find?, h]

lemma foldTables_fixed_lookup (m : UrdfModel) (es : List Edge) (st : Tables)
    (n : String) :
    lookupA n (foldTables m es st).segments_fixed_ =
      (lookupA n st.segments_fixed_).or
        ((es.find? (fun e => fixedEdge m e && (edgeName e == n))).map mkSP) := by
  induction es generalizing st with
  | nil =>
    have h : foldTables m [] st = st := rfl
    rw [h]
    cases lookupA n st.segments_fixed_ <;> rfl
  | cons e rest ih =>
    have hfold : foldTables m (e :: rest) st
        = foldTables m rest (stepTables m st e.root e.child) := rfl
    rw [hfold, ih]
    by_cases hty : e.child.joint.type = KDLJointType.None
    · by_cases hfl : isFloatingInModel m e.child.joint.name = true
      · rw [find?_cons_neg (fun e => fixedEdge m e && (edgeName e == n)) e rest
              (by simp [fixedEdge, hfl])]
        have hstep : stepTables m st e.root e.child = st := by
          simp [stepTables, hty, hfl]
        rw [hstep]
      · have hstep : (stepTables m st e.root e.child).segments_fixed_
            = insertA e.child.joint.name (mkSP e) st.segments_fixed_ := by
          rw [stepTables]
          simp only [hty, if_true, if_pos, hfl, if_false]
          simp [hfl, mkSP]
        by_cases hn : e.child.joint.name = n
        · rw [find?_cons_pos (fun e => fixedEdge m e && (edgeName e == n)) e rest
                (by
                  have hfl' : isFloatingInModel m n = false := by
                    rw [← hn]; simpa using hfl
                  simp [fixedEdge, edgeName, hty, hn, hfl'])]
          rw [hstep, hn]
          cases hl : lookupA n st.segments_fixed_ with
          | some w => rw [lookupA_insertA_of_some _ _ hl]; rfl
          | none => rw [lookupA_insertA_self _ hl]; rfl
        · rw [find?_cons_neg (fun e => fixedEdge m e && (edgeName e == n)) e rest
                (by simp [edgeName, hn])]
          rw [hstep, lookupA_insertA_ne _ _ hn]
    · rw [find?_cons_neg (fun e => fixedEdge m e && (edgeName e == n)) e rest
            (by simp [fixedEdge, hty])]
      have hstep : (stepTables m st e.root e.child).segments_fixed_
          = st.segments_fixed_ := by
        simp [stepTables, hty]
      rw [hstep]

lemma foldTables_moving_lookup (m : UrdfModel) (es : List Edge) (st : Tables)
    (n : String) :
    lookupA n (foldTables m es st).segments_ =
      (lookupA n st.segments_).or
        ((es.find? (fun e => movingEdge e && (edgeName e == n))).map mkSP) := by
  induction es generalizing st with
  | nil =>
    have h : foldTables m [] st = st := rfl
    rw [h]
    cases lookupA n st.segments_ <;> rfl
  | cons e rest ih =>
    have hfold : foldTables m (e :: rest) st
        = foldTables m rest (stepTables m st e.root e.child) := rfl
    rw [hfold, ih]
    by_cases hty : e.child.joint.type = KDLJointType.None
    · rw [find?_cons_neg (fun e => movingEdge e && (edgeName e == n)) e rest
            (by simp [movingEdge, hty])]
      have hstep : (stepTables m st e.root e.child).segments_ = st.segments_ := by
        by_cases hfl : isFloatingInModel m e.child.joint.name = true <;>
          simp [stepTables, hty, hfl]
      rw [hstep]
    · have hstep : (stepTables m st e.root e.child).segments_
          = insertA e.child.joint.name (mkSP e) st.segments_ := by
        simp [stepTables, hty, mkSP]
      by_cases hn : e.child.joint.name = n
      · rw [find?_cons_pos (fun e => movingEdge e && (edgeName e == n)) e rest
              (by simp [movingEdge, edgeName, hty, hn])]
        rw [hstep, hn]
        cases hl : lookupA n st.segments_ with
        | some w => rw [lookupA_insertA_of_some _ _ hl]; rfl
        | none => rw [lookupA_insertA_self _ hl]; rfl
      · rw [find?_cons_neg (fun e => movingEdge e && (edgeName e == n)) e rest
              (by simp [edgeName, hn])]
        rw [hstep, lookupA_insertA_ne _ _ hn]

lemma foldTables_append (m : UrdfModel) (es es' : List Edge) (st : Tables) :
    foldTables m (es ++ es') st = foldTables m es' (foldTables m es st) := by
  simp [foldTables, List.foldl_append]

mutual
theorem addChildren_eq_fold (m : UrdfModel) (t : Tree) (st : Tables) :
    addChildren m t st = foldTables m (edgesT t) st := by
  cases t with
  | mk seg children =>
    rw [addChildren, edgesT]
    exact addChildrenL_eq_fold m seg.name children st
theorem addChildrenL_eq_fold (m : UrdfModel) (root : String) (cs : TreeList)
    (st : Tables) :
    addChildrenL m root cs st = foldTables m (edgesL root cs) st := by
  cases cs with
  | nil => rfl
  | cons c rest =>
    rw [addChildrenL, edgesL]
    rw [addChildren_eq_fold m c, addChildrenL_eq_fold m root rest]
    have h : foldTables m (Edge.mk root c.seg :: (edgesT c ++ edgesL root rest)) st
        = foldTables m (edgesT c ++ edgesL root rest)
            (stepTables m st root c.seg) := rfl
    rw [h, foldTables_append]
end

lemma foldTables_fixed_keys_nodup (m : UrdfModel) (es : List Edge) (st : Tables)
    (h : (keysA st.segments_fixed_).Nodup) :
    (keysA (foldTables m es st).segments_fixed_).Nodup := by
  induction es generalizing st with
  | nil => exact h
  | cons e rest ih =>
    have hfold : foldTables m (e :: rest) st
        = foldTables m rest (stepTables m st e.root e.child) := rfl
    rw [hfold]
    apply ih
    rw [stepTables]
    by_cases hty : e.child.joint.type = KDLJointType.None
    · by_cases hfl : isFloatingInModel m e.child.joint.name = true
      · simp [hty, hfl, h]
      · simp [hty, hfl]
        exact keysA_insertA_nodup _ _ h
    · simp [hty, h]

/-! ## Lemmas about mimic expansion -/

lemma expandMimic_cons (i : String × JointMimic) (rest : List (String × JointMimic))
    (jp : List (String × Rat)) :
    expandMimic (i :: rest) jp =
      expandMimic rest
        (match lookupA i.2.joint_name jp with
         | some pos => insertA i.1 (pos * i.2.multiplier + i.2.offset) jp
         | Option.none => jp) := rfl

/-- A position already bound in the batch survives the whole expansion
loop unchanged (`std::map::insert` never overwrites). -/
lemma lookup_expand_of_some (mm : List (String × JointMimic))
    {jp : List (String × Rat)} {n : String} {v : Rat}
    (h : lookupA n jp = some v) :
    lookupA n (expandMimic mm jp) = some v := by
  induction mm generalizing jp with
  | nil => exact h
  | cons i rest ih =>
    rw [expandMimic_cons]
    cases hsrc : lookupA i.2.joint_name jp with
    | some pos => exact ih (lookupA_insertA_of_some _ _ h)
    | none => exact ih h

/-- A name absent from the batch and not the dependent of any mimic
entry is still absent after expansion. -/
lemma lookup_expand_none (mm : List (String × JointMimic))
    {jp : List (String × Rat)} {n : String}
    (h1 : lookupA n jp = Option.none) (h2 : ∀ p ∈ mm, p.1 ≠ n) :
    lookupA n (expandMimic mm jp) = Option.none := by
  induction mm generalizing jp with
  | nil => exact h1
  | cons i rest ih =>
    rw [expandMimic_cons]
    cases hsrc : lookupA i.2.joint_name jp with
    | some pos =>
      refine ih ?_ (fun p hp => h2 p (List.mem_cons_of_mem _ hp))
      rw [lookupA_insertA_ne _ _ (h2 i (List.mem_cons_self i rest))]
      exact h1
    | none => exact ih h1 (fun p hp => h2 p (List.mem_cons_of_mem _ hp))

/-- The core of mimic expansion: an entry whose source is bound to `p`
in the batch and whose dependent is not yet bound inserts
`p * multiplier + offset` under the dependent's name. -/
lemma lookup_expand_insert {mm : List (String × JointMimic)}
    {jp : List (String × Rat)} {D : String} {mi : JointMimic} {p : Rat}
    (hnd : (keysA mm).Nodup) (hmem : (D, mi) ∈ mm)
    (hsrc : lookupA mi.joint_name jp = some p)
    (hD : lookupA D jp = Option.none) :
    lookupA D (expandMimic mm jp) = some (p * mi.multiplier + mi.offset) := by
  induction mm generalizing jp with
  | nil => cases hmem
  | cons i rest ih =>
    have hndTail : (keysA rest).Nodup := by
      have : (i.1 :: keysA rest).Nodup := hnd
      exact (List.nodup_cons.mp this).2
    rcases List.mem_cons.mp hmem with heq | hrest
    · subst heq
      rw [expandMimic_cons]
      rw [hsrc]
      exact lookup_expand_of_some rest (lookupA_insertA_self _ hD)
    · have hiD : i.1 ≠ D := by
        intro hc
        have hhead : i.1 ∉ keysA rest := by
          have : (i.1 :: keysA rest).Nodup := hnd
          exact (List.nodup_cons.mp this).1
        have : D ∈ keysA rest := List.mem_map_of_mem Prod.fst hrest
        exact hhead (hc ▸ this)
      rw [expandMimic_cons]
      cases hsrc' : lookupA i.2.joint_name jp with
      | some pos =>
        refine ih hndTail hrest (lookupA_insertA_of_some _ _ hsrc) ?_
        rw [lookupA_insertA_ne _ _ hiD]
        exact hD
      | none => exact ih hndTail hrest hsrc hD

/-- An entry whose source joint is neither in the batch nor the
dependent of any entry contributes nothing: its dependent stays absent. -/
lemma lookup_expand_skip {mm : List (String × JointMimic)}
    {jp : List (String × Rat)} {D : String} {mi : JointMimic}
    (hnd : (keysA mm).Nodup) (hmem : (D, mi) ∈ mm)
    (hsrc : lookupA mi.joint_name jp = Option.none)
    (hsrcNotDep : ∀ p ∈ mm, p.1 ≠ mi.joint_name)
    (hD : lookupA D jp = Option.none) :
    lookupA D (expandMimic mm jp) = Option.none := by
  induction mm generalizing jp with
  | nil => exact hD
  | cons i rest ih =>
    have hndTail : (keysA rest).Nodup := by
      have : (i.1 :: keysA rest).Nodup := hnd
      exact (List.nodup_cons.mp this).2
    have hhead : i.1 ∉ keysA rest := by
      have : (i.1 :: keysA rest).Nodup := hnd
      exact (List.nodup_cons.mp this).1
    rcases List.mem_cons.mp hmem with heq | hrest
    · subst heq
      rw [expandMimic_cons, hsrc]
      refine lookup_expand_none rest hD (fun p hp => ?_)
      intro hc
      have : D ∈ keysA rest := by
        have : p.1 ∈ keysA rest := List.mem_map_of_mem Prod.fst hp
        exact hc ▸ this
      exact hhead this
    · have hiD : i.1 ≠ D := by
        intro hc
        have : D ∈ keysA rest := List.mem_map_of_mem Prod.fst hrest
        exact hhead (hc ▸ this)
      rw [expandMimic_cons]
      cases hsrc' : lookupA i.2.joint_name jp with
      | some pos =>
        refine ih hndTail hrest ?_ (fun p hp => hsrcNotDep p (List.mem_cons_of_mem _ hp)) ?_
        · rw [lookupA_insertA_ne _ _ (hsrcNotDep i (List.mem_cons_self i rest))]
          exact hsrc
        · rw [lookupA_insertA_ne _ _ hiD]
          exact hD
      | none =>
        exact ih hndTail hrest hsrc
          (fun p hp => hsrcNotDep p (List.mem_cons_of_mem _ hp)) hD

lemma foldTables_moving_keys_nodup (m : UrdfModel) (es : List Edge) (st : Tables)
    (h : (keysA st.segments_).Nodup) :
    (keysA (foldTables m es st).segments_).Nodup := by
  induction es generalizing st with
  | nil => exact h
  | cons e rest ih =>
    have hfold : foldTables m (e :: rest) st
        = foldTables m rest (stepTables m st e.root e.child) := rfl
    rw [hfold]
    apply ih
    rw [stepTables]
    by_cases hty : e.child.joint.type = KDLJointType.None
    · by_cases hfl : isFloatingInModel m e.child.joint.name = true <;>
        simp [hty, hfl, h]
    · simp [hty, keysA_insertA_nodup _ _ h]

/-! ## Lemmas about the publishers -/

/-- The moving-transform loop emits exactly one transform per batch
entry whose joint name has a matching segment. -/
lemma publishLoop_length (segs : List (String × SegmentPair))
    (jp : List (String × Rat)) (time : Rat) :
    (publishLoop segs jp time).length
      = ((keysA jp).filter (fun n => (lookupA n segs).isSome)).length := by
  induction jp with
  | nil => rfl
  | cons e rest ih =>
    obtain ⟨n, pos⟩ := e
    rw [publishLoop]
    cases h : lookupA n segs with
    | some s => simp [keysA, h, List.filter_cons] at *; omega
    | none => simp [keysA, h, List.filter_cons] at *; omega

/-- Every matched batch entry's transform is in the emitted batch. -/
lemma publishLoop_mem {segs : List (String × SegmentPair)}
    {jp : List (String × Rat)} {time : Rat} {n : String} {pos : Rat}
    {s : SegmentPair} (hmem : (n, pos) ∈ jp)
    (hs : lookupA n segs = some s) :
    movingTf s pos time ∈ publishLoop segs jp time := by
  induction jp with
  | nil => cases hmem
  | cons e rest ih =>
    obtain ⟨n', pos'⟩ := e
    rw [publishLoop]
    rcases List.mem_cons.mp hmem with heq | hrest
    · have h1 : n = n' := congrArg Prod.fst heq
      have h2 : pos = pos' := congrArg Prod.snd heq
      subst h1; subst h2
      rw [hs]
      exact List.mem_cons_self _ _
    · cases h : lookupA n' segs with
      | some s' => exact List.mem_cons_of_mem _ (ih hrest)
      | none => exact ih hrest

/-- Every transform emitted by the moving-transform loop originates
from a matched batch entry. -/
lemma publishLoop_mem_src {segs : List (String × SegmentPair)}
    {jp : List (String × Rat)} {time : Rat} {tf : TfStamped}
    (h : tf ∈ publishLoop segs jp time) :
    ∃ n pos s, (n, pos) ∈ jp ∧ lookupA n segs = some s ∧
      tf = movingTf s pos time := by
  induction jp with
  | nil => cases h
  | cons e rest ih =>
    obtain ⟨n', pos'⟩ := e
    rw [publishLoop] at h
    cases hl : lookupA n' segs with
    | some s' =>
      rw [hl] at h
      rcases List.mem_cons.mp h with heq | htail
      · exact ⟨n', pos', s', List.mem_cons_self _ _, hl, heq⟩
      · rcases ih htail with ⟨n, pos, s, hmem, hs, htf⟩
        exact ⟨n, pos, s, List.mem_cons_of_mem _ hmem, hs, htf⟩
    | none =>
      rw [hl] at h
      rcases ih h with ⟨n, pos, s, hmem, hs, htf⟩
      exact ⟨n, pos, s, List.mem_cons_of_mem _ hmem, hs, htf⟩

/-! ## Lemmas about the mimic map builder -/

/-- Every entry of the built mimic map is the declared mimic relation of
the like-named joint of the model. -/
lemma mem_setJointMimicMap {m : UrdfModel} {q : String × JointMimic}
    (h : q ∈ setJointMimicMap m) :
    ∃ j, (q.1, j) ∈ m.joints_ ∧ j.mimic = some q.2 := by
  have hgen : ∀ (js : List (String × UrdfJoint))
      (acc : List (String × JointMimic)),
      q ∈ js.foldl
        (fun mm j =>
          match j.2.mimic with
          | some mi => insertA j.1 mi mm
          | Option.none => mm) acc →
      q ∈ acc ∨ ∃ j, (q.1, j) ∈ js ∧ j.mimic = some q.2 := by
    intro js
    induction js with
    | nil => exact fun acc hq => Or.inl hq
    | cons j rest ih =>
      intro acc hq
      rw [List.foldl_cons] at hq
      rcases ih _ hq with hacc | ⟨j', hj', hmi⟩
      · cases hj : j.2.mimic with
        | some mi =>
          rw [hj] at hacc
          rcases mem_insertA hacc with hin | heq
          · exact Or.inl hin
          · refine Or.inr ⟨j.2, ?_, ?_⟩
            · have h1 : q.1 = j.1 := congrArg Prod.fst heq
              rw [h1]
              exact List.mem_cons_self _ _
            · have h2 : q.2 = mi := congrArg Prod.snd heq
              rw [h2, hj]
        | none =>
          rw [hj] at hacc
          exact Or.inl hacc
      · exact Or.inr ⟨j', List.mem_cons_of_mem _ hj', hmi⟩
  rcases hgen m.joints_ [] h with hq | hq
  · cases hq
  · exact hq

/-! ## Claim C4: failed lock acquisition skips the cycle -/

/-- C4: a publish operation (moving or fixed) whose non-blocking lock
attempt fails returns having emitted zero transforms (no batch reaches
any sink) and leaves the whole state — segment tables, mimic map,
pending-republish flag — unchanged. -/
theorem C4_lock_failure_skips (st : RSPState) (jp : List (String × Rat))
    (time now : Rat) (use_tf_static lockOk : Bool)
    (h : lockOk = false) :
    publishTransforms lockOk st jp time = (Option.none, st) ∧
    publishFixedTransforms lockOk now st use_tf_static = (Option.none, st) := by
  subst h
  exact ⟨rfl, rfl⟩

/-- Witness for C4 at a concrete state. -/
theorem C4_lock_failure_skips_witness :
    (false = false) ∧
    (publishTransforms false ⟨true, [], [], [], true⟩ [("a", 1)] 0
        = (Option.none, ⟨true, [], [], [], true⟩) ∧
     publishFixedTransforms false 0 ⟨true, [], [], [], true⟩ true
        = (Option.none, ⟨true, [], [], [], true⟩)) :=
  ⟨rfl, C4_lock_failure_skips ⟨true, [], [], [], true⟩ [("a", 1)] 0 0 true false rfl⟩

/-! ## Claim C6: fixed publish on the two channels -/

/-- C6: with the lock acquired, `publishFixedTransforms true` routes to
the static sink and `publishFixedTransforms false` routes to the
dynamic sink; the `false` batch is exactly the `true` batch (same frame
pairs, same zero-angle transforms, in the same order) with each stamp
advanced by the 0.5 s compatibility offset. -/
theorem C6_fixed_channel_offset (now : Rat) (st : RSPState) :
    (publishFixedTransforms true now st true).1 =
      some (Channel.tfStatic, st.segments_fixed_.map (fixedTf true now)) ∧
    (publishFixedTransforms true now st false).1 =
      some (Channel.dynamic,
        (st.segments_fixed_.map (fixedTf true now)).map
          (fun tf => { tf with stamp := tf.stamp + (1 : Rat) / 2 })) := by
  refine ⟨rfl, ?_⟩
  rw [List.map_map]
  rfl

/-! ## Claim C8: frame-name normalization -/

/-- C8: every published transform (moving or fixed) carries parent and
child frame names normalized by `stripSlash`: a leading path separator
is stripped ("/base_link" becomes "base_link") and a name without one
is unchanged. -/
theorem C8_frame_normalization :
    stripSlash "/base_link" = "base_link" ∧
    (∀ s : String, s.data.head? ≠ some '/' → stripSlash s = s) ∧
    (∀ (st : RSPState) (jp : List (String × Rat)) (time : Rat)
       (ch : Channel) (tfs : List TfStamped) (tf : TfStamped),
       (publishTransforms true st jp time).1 = some (ch, tfs) → tf ∈ tfs →
       ∃ n pos s, (n, pos) ∈ jp ∧ lookupA n st.segments_ = some s ∧
         tf.frame_id = stripSlash s.root ∧ tf.child_frame_id = stripSlash s.tip) ∧
    (∀ (use_tf_static : Bool) (now : Rat) (st : RSPState)
       (ch : Channel) (tfs : List TfStamped) (tf : TfStamped),
       (publishFixedTransforms true now st use_tf_static).1 = some (ch, tfs) →
       tf ∈ tfs →
       ∃ seg ∈ st.segments_fixed_,
         tf.frame_id = stripSlash seg.2.root ∧
         tf.child_frame_id = stripSlash seg.2.tip) := by
  refine ⟨by decide, ?_, ?_, ?_⟩
  · intro s h
    unfold stripSlash
    split
    · rename_i rest heq
      exact absurd (by rw [heq]; rfl) h
    · rfl
  · intro st jp time ch tfs tf hsome htf
    have h1 := Option.some.inj hsome
    have htfs : tfs = publishLoop st.segments_ jp time :=
      (congrArg Prod.snd h1).symm
    subst htfs
    rcases publishLoop_mem_src htf with ⟨n, pos, s, hmem, hs, heq⟩
    exact ⟨n, pos, s, hmem, hs, by rw [heq]; rfl, by rw [heq]; rfl⟩
  · intro use_tf_static now st ch tfs tf hsome htf
    have h1 := Option.some.inj hsome
    have htfs : tfs = st.segments_fixed_.map (fixedTf use_tf_static now) :=
      (congrArg Prod.snd h1).symm
    subst htfs
    rcases List.mem_map.mp htf with ⟨seg, hseg, heq⟩
    exact ⟨seg, hseg, by rw [← heq]; rfl, by rw [← heq]; rfl⟩

/-- Witness for C8 at concrete frame names. -/
theorem C8_frame_normalization_witness :
    (("base_link" : String).data.head? ≠ some '/') ∧
    stripSlash "base_link" = "base_link" ∧
    stripSlash "/base_link" = "base_link" :=
  ⟨by decide, C8_frame_normalization.2.1 "base_link" (by decide),
   C8_frame_normalization.1⟩

/-! ## Claim C10: mimic expansion never overwrites a supplied position -/

/-- C10: a position directly supplied for a mimic-dependent joint in the
input batch survives expansion unchanged: the derived value never
overwrites an existing entry (`std::map::insert` semantics). -/
theorem C10_no_overwrite (mm : List (String × JointMimic))
    (jp : List (String × Rat)) (D : String) (v : Rat)
    (h : lookupA D jp = some v) :
    lookupA D (expandMimic mm jp) = some v :=
  lookup_expand_of_some mm h

/-- Witness for C10: joint B is supplied directly with 7 and its mimic
entry (2·A + 1/2 would give 5/2) does not overwrite it. -/
theorem C10_no_overwrite_witness :
    lookupA "B" [("A", (1 : Rat)), ("B", 7)] = some 7 ∧
    lookupA "B" (expandMimic [("B", JointMimic.mk "A" 2 (1/2 : Rat))]
        [("A", 1), ("B", 7)]) = some 7 :=
  ⟨by decide,
   C10_no_overwrite [("B", JointMimic.mk "A" 2 (1/2 : Rat))]
     [("A", 1), ("B", 7)] "B" 7 (by decide)⟩

/-! ## Claim C3: mimic expansion semantics -/

/-- C3: with distinct mimic-map keys (a `std::map` invariant), an entry
whose source joint is bound to `p` in the batch and whose dependent is
not yet bound adds `p * multiplier + offset` under the dependent's
name; an entry whose source joint is absent (from the batch and from
the expansion) contributes nothing and causes no error; and the spec's
concrete example holds: batch {A: 1} with entry {B ← A, ×2, +0.5}
yields {A: 1, B: 5/2}. -/
theorem C3_mimic_expansion :
    (∀ (mm : List (String × JointMimic)) (jp : List (String × Rat))
       (D : String) (mi : JointMimic) (p : Rat),
       (keysA mm).Nodup → (D, mi) ∈ mm →
       lookupA mi.joint_name jp = some p → lookupA D jp = Option.none →
       lookupA D (expandMimic mm jp) = some (p * mi.multiplier + mi.offset)) ∧
    (∀ (mm : List (String × JointMimic)) (jp : List (String × Rat))
       (D : String) (mi : JointMimic),
       (keysA mm).Nodup → (D, mi) ∈ mm →
       lookupA mi.joint_name jp = Option.none →
       (∀ q ∈ mm, q.1 ≠ mi.joint_name) → lookupA D jp = Option.none →
       lookupA D (expandMimic mm jp) = Option.none) ∧
    expandMimic [("B", JointMimic.mk "A" 2 (1/2 : Rat))] [("A", 1)]
      = [("A", (1 : Rat)), ("B", 5/2)] := by
  refine ⟨?_, ?_, ?_⟩
  · intro mm jp D mi p hnd hmem hsrc hD
    exact lookup_expand_insert hnd hmem hsrc hD
  · intro mm jp D mi hnd hmem hsrc hdep hD
    exact lookup_expand_skip hnd hmem hsrc hdep hD
  · simp [expandMimic, lookupA, insertA]
    norm_num

/-- Witness for C3 at the spec's concrete example. -/
theorem C3_mimic_expansion_witness :
    (keysA [("B", JointMimic.mk "A" 2 (1/2 : Rat))]).Nodup ∧
    ("B", JointMimic.mk "A" 2 (1/2 : Rat))
      ∈ [("B", JointMimic.mk "A" 2 (1/2 : Rat))] ∧
    lookupA "A" [("A", (1 : Rat))] = some 1 ∧
    lookupA "B" [("A", (1 : Rat))] = Option.none ∧
    lookupA "B" (expandMimic [("B", JointMimic.mk "A" 2 (1/2 : Rat))]
        [("A", 1)]) = some (1 * 2 + 1/2) :=
  ⟨by decide, List.mem_cons_self _ _, by decide, by decide,
   C3_mimic_expansion.1 [("B", JointMimic.mk "A" 2 (1/2 : Rat))]
     [("A", 1)] "B" (JointMimic.mk "A" 2 (1/2 : Rat)) 1
     (by decide) (List.mem_cons_self _ _) (by decide) (by decide)⟩

/-! ## Claim C7: moving publish emits exactly the matched joints -/

/-- C7: with the lock acquired, the moving publisher emits exactly one
transform per batch joint name that has a matching segment in the
moving table (one batch, dynamic sink); an unmatched batch entry is
skipped (its only effect is a throttled diagnostic log, which carries
no program state) while every matched entry still publishes. -/
theorem C7_moving_matched_only (st : RSPState) (jp : List (String × Rat))
    (time : Rat) (ch : Channel) (tfs : List TfStamped)
    (h : (publishTransforms true st jp time).1 = some (ch, tfs)) :
    ch = Channel.dynamic ∧
    tfs.length
      = ((keysA jp).filter (fun n => (lookupA n st.segments_).isSome)).length ∧
    (∀ n pos s, (n, pos) ∈ jp → lookupA n st.segments_ = some s →
      movingTf s pos time ∈ tfs) := by
  have h1 := Option.some.inj h
  have hch : ch = Channel.dynamic := (congrArg Prod.fst h1).symm
  have htfs : tfs = publishLoop st.segments_ jp time :=
    (congrArg Prod.snd h1).symm
  subst htfs
  exact ⟨hch, publishLoop_length st.segments_ jp time,
    fun n pos s hm hs => publishLoop_mem hm hs⟩

/-- A concrete moving segment for the witnesses. -/
def wSeg : SegmentPair :=
  ⟨⟨"l1", ⟨"j1", KDLJointType.RotZ⟩, fun a => a⟩, "/base", "l1"⟩

/-- A concrete publisher state for the witnesses: one moving segment
keyed "j1", no fixed segments. -/
def wState : RSPState := ⟨true, [("j1", wSeg)], [], [], false⟩

/-- Witness for C7: batch with one matched joint ("j1") and one missing
joint ("ghost"): one transform is emitted and the matched transform is
in the batch. -/
theorem C7_moving_matched_only_witness :
    (publishTransforms true wState [("j1", 1), ("ghost", 2)] 0).1
      = some (Channel.dynamic,
          publishLoop wState.segments_ [("j1", 1), ("ghost", 2)] 0) ∧
    (Channel.dynamic = Channel.dynamic ∧
     (publishLoop wState.segments_ [("j1", 1), ("ghost", 2)] 0).length
       = ((keysA [("j1", (1 : Rat)), ("ghost", 2)]).filter
           (fun n => (lookupA n wState.segments_).isSome)).length ∧
     (∀ n pos s, (n, pos) ∈ [("j1", (1 : Rat)), ("ghost", 2)] →
       lookupA n wState.segments_ = some s →
       movingTf s pos 0 ∈ publishLoop wState.segments_ [("j1", 1), ("ghost", 2)] 0)) :=
  ⟨rfl, C7_moving_matched_only wState [("j1", 1), ("ghost", 2)] 0
    Channel.dynamic _ rfl⟩

/-! ## Claim C5: pending republish is consumed exactly once -/

/-- C5: after `onURDFSwap` sets the pending-republish flag, the first
`setRobotDescriptionIfChanged` (with its inner lock available) emits
all current fixed segments on the static channel and clears the flag;
a second consecutive call emits nothing and changes nothing. -/
theorem C5_republish_once (st : RSPState) (m : UrdfModel) (t : Tree)
    (urdf_ptr : Option UrdfModel) (now now₂ : Rat) (lk₂ : Bool)
    (hinit : st.initialized_ = true) :
    (setRobotDescriptionIfChanged true now (onURDFSwap st m t urdf_ptr)).1 =
      some (Channel.tfStatic,
        (onURDFSwap st m t urdf_ptr).segments_fixed_.map (fixedTf true now)) ∧
    (setRobotDescriptionIfChanged true now
        (onURDFSwap st m t urdf_ptr)).2.urdf_changed_ = false ∧
    (setRobotDescriptionIfChanged lk₂ now₂
        (setRobotDescriptionIfChanged true now (onURDFSwap st m t urdf_ptr)).2).1
      = Option.none ∧
    (setRobotDescriptionIfChanged lk₂ now₂
        (setRobotDescriptionIfChanged true now (onURDFSwap st m t urdf_ptr)).2).2
      = (setRobotDescriptionIfChanged true now (onURDFSwap st m t urdf_ptr)).2 := by
  have hflag : (onURDFSwap st m t urdf_ptr).urdf_changed_ = true := by
    simp [onURDFSwap, hinit]
  have hr₁ : setRobotDescriptionIfChanged true now (onURDFSwap st m t urdf_ptr)
      = (some (Channel.tfStatic,
          (onURDFSwap st m t urdf_ptr).segments_fixed_.map (fixedTf true now)),
         { onURDFSwap st m t urdf_ptr with urdf_changed_ := false }) := by
    rw [setRobotDescriptionIfChanged, if_pos hflag, publishFixedTransforms]
    simp
  refine ⟨?_, ?_, ?_, ?_⟩
  · rw [hr₁]
  · rw [hr₁]
  · rw [hr₁, setRobotDescriptionIfChanged]
    simp
  · rw [hr₁, setRobotDescriptionIfChanged]
    simp

/-- A concrete one-child tree (fixed joint "jf") for the witnesses. -/
def wTree : Tree :=
  .mk ⟨"base", ⟨"rootj", KDLJointType.None⟩, fun _ => 0⟩
    (.cons (.mk ⟨"l1", ⟨"jf", KDLJointType.None⟩, fun _ => 3⟩ .nil) .nil)

/-- A concrete body model (fixed joint "jf") for the witnesses. -/
def wModel : UrdfModel := ⟨[("jf", ⟨UrdfJointType.FIXED, Option.none⟩)]⟩

/-- Witness for C5 at a concrete swap. -/
theorem C5_republish_once_witness :
    wState.initialized_ = true ∧
    ((setRobotDescriptionIfChanged true 0
        (onURDFSwap wState wModel wTree Option.none)).1 =
      some (Channel.tfStatic,
        (onURDFSwap wState wModel wTree Option.none).segments_fixed_.map
          (fixedTf true 0)) ∧
    (setRobotDescriptionIfChanged true 0
        (onURDFSwap wState wModel wTree Option.none)).2.urdf_changed_ = false ∧
    (setRobotDescriptionIfChanged false 1
        (setRobotDescriptionIfChanged true 0
          (onURDFSwap wState wModel wTree Option.none)).2).1 = Option.none ∧
    (setRobotDescriptionIfChanged false 1
        (setRobotDescriptionIfChanged true 0
          (onURDFSwap wState wModel wTree Option.none)).2).2
      = (setRobotDescriptionIfChanged true 0
          (onURDFSwap wState wModel wTree Option.none)).2) :=
  ⟨rfl, C5_republish_once wState wModel wTree Option.none 0 1 false rfl⟩

/-! ## Claim C9: no self-mimic (corrected) -/

/-- The mimic map has no self-referencing entry: no dependent joint's
source is the dependent itself. -/
def selfMimicConsistent (mm : List (String × JointMimic)) : Prop :=
  ∀ q ∈ mm, q.2.joint_name ≠ q.1

/-- A body model carrying a self-referencing mimic declaration: joint
"a" mimics "a". -/
def selfMimicModel : UrdfModel :=
  ⟨[("a", ⟨UrdfJointType.REVOLUTE, some ⟨"a", 1, 0⟩⟩)]⟩

/-- C9 counterexample: `setJointMimicMap` performs no self-reference
check, so a body model in which a joint mimics itself yields a mimic
map with a self-referencing entry; the claimed invariant fails for
this model. -/
theorem C9_self_mimic_counterexample :
    ¬ selfMimicConsistent (setJointMimicMap selfMimicModel) := by
  intro h
  exact h ("a", ⟨"a", 1, 0⟩) (List.mem_cons_self _ _) rfl

/-- C9 amended: for every body model none of whose declared mimic
relations is self-referencing, the built mimic map has no entry whose
source equals the dependent joint it is keyed by.  (`setJointMimicMap`
copies declarations verbatim, so the invariant holds exactly when the
input model satisfies it.) -/
theorem C9_no_self_mimic_amended (m : UrdfModel)
    (h : ∀ q ∈ m.joints_,
      q.2.mimic.all (fun mi => mi.joint_name != q.1) = true) :
    selfMimicConsistent (setJointMimicMap m) := by
  intro q hq
  rcases mem_setJointMimicMap hq with ⟨j, hj, hmi⟩
  have hall := h (q.1, j) hj
  rw [hmi] at hall
  have : (q.2.joint_name != q.1) = true := hall
  simpa using this

/-- A model whose only mimic declaration is non-self-referencing. -/
def okMimicModel : UrdfModel :=
  ⟨[("b", ⟨UrdfJointType.REVOLUTE, some ⟨"a", 2, 0⟩⟩)]⟩

/-- Witness for the amended C9. -/
theorem C9_no_self_mimic_amended_witness :
    (∀ q ∈ okMimicModel.joints_,
      q.2.mimic.all (fun mi => mi.joint_name != q.1) = true) ∧
    selfMimicConsistent (setJointMimicMap okMimicModel) :=
  ⟨by decide, C9_no_self_mimic_amended okMimicModel (by decide)⟩

/-! ## Claims C1 and C2: tree-builder classification -/

/-- Lookup in the fixed table built from empty tables is the first
fixed-classified edge carrying the name. -/
lemma addChildren_fixed_lookup (m : UrdfModel) (t : Tree) (n : String) :
    lookupA n (addChildren m t emptyTables).segments_fixed_ =
      ((edgesT t).find? (fun e => fixedEdge m e && (edgeName e == n))).map mkSP := by
  rw [addChildren_eq_fold, foldTables_fixed_lookup]
  rfl

/-- Lookup in the moving table built from empty tables is the first
moving-classified edge carrying the name. -/
lemma addChildren_moving_lookup (m : UrdfModel) (t : Tree) (n : String) :
    lookupA n (addChildren m t emptyTables).segments_ =
      ((edgesT t).find? (fun e => movingEdge e && (edgeName e == n))).map mkSP := by
  rw [addChildren_eq_fold, foldTables_moving_lookup]
  rfl

/-- C1: when joint names in the tree are distinct (as in a URDF-derived
tree), every edge's joint lands exactly where its classification says:
a `None`-typed joint not floating in the model is in the fixed table
and not the moving one, any other type is in the moving table and not
the fixed one; no name is in both tables and no table keys a name
twice. -/
theorem C1_tree_builder_classification (m : UrdfModel) (t : Tree)
    (hnd : ((edgesT t).map edgeName).Nodup) :
    (∀ e ∈ edgesT t,
      (e.child.joint.type = KDLJointType.None →
        isFloatingInModel m e.child.joint.name = false →
        (lookupA e.child.joint.name
            (addChildren m t emptyTables).segments_fixed_).isSome = true ∧
        lookupA e.child.joint.name (addChildren m t emptyTables).segments_
          = Option.none) ∧
      (e.child.joint.type ≠ KDLJointType.None →
        (lookupA e.child.joint.name
            (addChildren m t emptyTables).segments_).isSome = true ∧
        lookupA e.child.joint.name
            (addChildren m t emptyTables).segments_fixed_ = Option.none)) ∧
    (∀ n : String,
      ¬ ((lookupA n (addChildren m t emptyTables).segments_fixed_).isSome = true ∧
         (lookupA n (addChildren m t emptyTables).segments_).isSome = true)) ∧
    (keysA (addChildren m t emptyTables).segments_fixed_).Nodup ∧
    (keysA (addChildren m t emptyTables).segments_).Nodup := by
  have inj := List.inj_on_of_nodup_map hnd
  refine ⟨?_, ?_, ?_, ?_⟩
  · intro e he
    constructor
    · intro hty hfl
      constructor
      · rw [addChildren_fixed_lookup, Option.isSome_map']
        rw [List.find?_isSome]
        exact ⟨e, he, by simp [fixedEdge, edgeName, hty, hfl]⟩
      · rw [addChildren_moving_lookup]
        have hnone : (edgesT t).find?
            (fun x => movingEdge x && (edgeName x == e.child.joint.name))
            = Option.none := by
          rw [List.find?_eq_none]
          intro x hx hpx
          simp [movingEdge, edgeName] at hpx
          obtain ⟨htyx, hnx⟩ := hpx
          have hxe : x = e := inj hx he (by simp [edgeName, hnx])
          rw [hxe] at htyx
          exact htyx hty
        rw [hnone]
        rfl
    · intro hty
      constructor
      · rw [addChildren_moving_lookup, Option.isSome_map']
        rw [List.find?_isSome]
        exact ⟨e, he, by simp [movingEdge, edgeName, hty]⟩
      · rw [addChildren_fixed_lookup]
        have hnone : (edgesT t).find?
            (fun x => fixedEdge m x && (edgeName x == e.child.joint.name))
            = Option.none := by
          rw [List.find?_eq_none]
          intro x hx hpx
          simp [fixedEdge, edgeName] at hpx
          obtain ⟨⟨htyx, _⟩, hnx⟩ := hpx
          have hxe : x = e := inj hx he (by simp [edgeName, hnx])
          rw [hxe] at htyx
          exact hty htyx
        rw [hnone]
        rfl
  · intro n ⟨hf, hm⟩
    rw [addChildren_fixed_lookup, Option.isSome_map', List.find?_isSome] at hf
    rw [addChildren_moving_lookup, Option.isSome_map', List.find?_isSome] at hm
    obtain ⟨e₁, he₁, hp₁⟩ := hf
    obtain ⟨e₂, he₂, hp₂⟩ := hm
    simp [fixedEdge, edgeName] at hp₁
    simp [movingEdge, edgeName] at hp₂
    obtain ⟨⟨hty₁, _⟩, hn₁⟩ := hp₁
    obtain ⟨hty₂, hn₂⟩ := hp₂
    have h12 : e₁ = e₂ := inj he₁ he₂ (by simp [edgeName, hn₁, hn₂])
    rw [h12] at hty₁
    exact hty₂ hty₁
  · rw [addChildren_eq_fold]
    exact foldTables_fixed_keys_nodup m (edgesT t) emptyTables List.nodup_nil
  · rw [addChildren_eq_fold]
    exact foldTables_moving_keys_nodup m (edgesT t) emptyTables List.nodup_nil

/-- A concrete model for the C1 witness: a fixed and a revolute joint. -/
def c1Model : UrdfModel :=
  ⟨[("jfix", ⟨UrdfJointType.FIXED, Option.none⟩),
    ("jmov", ⟨UrdfJointType.REVOLUTE, Option.none⟩)]⟩

/-- A concrete two-level tree for the C1 witness: base → l1 (joint
"jfix", KDL `None`) → l2 (joint "jmov", KDL `RotZ`). -/
def c1Tree : Tree :=
  .mk ⟨"base", ⟨"rootj", KDLJointType.None⟩, fun _ => 0⟩
    (.cons
      (.mk ⟨"l1", ⟨"jfix", KDLJointType.None⟩, fun _ => 1⟩
        (.cons (.mk ⟨"l2", ⟨"jmov", KDLJointType.RotZ⟩, fun a => a⟩ .nil) .nil))
      .nil)

/-- Witness for C1 at the concrete model and tree. -/
theorem C1_tree_builder_classification_witness :
    ((edgesT c1Tree).map edgeName).Nodup ∧
    ((∀ e ∈ edgesT c1Tree,
      (e.child.joint.type = KDLJointType.None →
        isFloatingInModel c1Model e.child.joint.name = false →
        (lookupA e.child.joint.name
            (addChildren c1Model c1Tree emptyTables).segments_fixed_).isSome = true ∧
        lookupA e.child.joint.name
            (addChildren c1Model c1Tree emptyTables).segments_ = Option.none) ∧
      (e.child.joint.type ≠ KDLJointType.None →
        (lookupA e.child.joint.name
            (addChildren c1Model c1Tree emptyTables).segments_).isSome = true ∧
        lookupA e.child.joint.name
            (addChildren c1Model c1Tree emptyTables).segments_fixed_ = Option.none)) ∧
    (∀ n : String,
      ¬ ((lookupA n (addChildren c1Model c1Tree emptyTables).segments_fixed_).isSome
            = true ∧
         (lookupA n (addChildren c1Model c1Tree emptyTables).segments_).isSome
            = true)) ∧
    (keysA (addChildren c1Model c1Tree emptyTables).segments_fixed_).Nodup ∧
    (keysA (addChildren c1Model c1Tree emptyTables).segments_).Nodup) :=
  ⟨by decide, C1_tree_builder_classification c1Model c1Tree (by decide)⟩

/-- C2 (amended): a joint name the body model classifies floating is
never in the fixed table, for any tree; and if every tree edge bearing
that name has KDL type `None` (the type the URDF→KDL conversion gives a
floating joint), the name is absent from the moving table as well. -/
theorem C2_floating_excluded_amended (m : UrdfModel) (t : Tree) (n : String)
    (hfl : isFloatingInModel m n = true) :
    lookupA n (addChildren m t emptyTables).segments_fixed_ = Option.none ∧
    ((∀ e ∈ edgesT t, edgeName e = n →
        e.child.joint.type = KDLJointType.None) →
      lookupA n (addChildren m t emptyTables).segments_ = Option.none) := by
  constructor
  · rw [addChildren_fixed_lookup]
    have hnone : (edgesT t).find? (fun e => fixedEdge m e && (edgeName e == n))
        = Option.none := by
      rw [List.find?_eq_none]
      intro x hx hpx
      simp [fixedEdge, edgeName] at hpx
      obtain ⟨⟨_, hnf⟩, hnx⟩ := hpx
      rw [hnx] at hnf
      rw [hfl] at hnf
      exact absurd hnf (by simp)
    rw [hnone]
    rfl
  · intro hall
    rw [addChildren_moving_lookup]
    have hnone : (edgesT t).find? (fun e => movingEdge e && (edgeName e == n))
        = Option.none := by
      rw [List.find?_eq_none]
      intro x hx hpx
      simp [movingEdge, edgeName] at hpx
      obtain ⟨htyx, hnx⟩ := hpx
      exact htyx (hall x hx hnx)
    rw [hnone]
    rfl

/-- A body model classifying joint "j" floating. -/
def c2Model : UrdfModel := ⟨[("j", ⟨UrdfJointType.FLOATING, Option.none⟩)]⟩

/-- A tree whose edge for joint "j" has KDL type `RotZ`, not `None`. -/
def c2Tree : Tree :=
  .mk ⟨"base", ⟨"rootj", KDLJointType.None⟩, fun _ => 0⟩
    (.cons (.mk ⟨"l1", ⟨"j", KDLJointType.RotZ⟩, fun a => a⟩ .nil) .nil)

/-- C2 counterexample: joint "j" is classified floating by the body
model, yet because its KDL kinematic type in the tree is `RotZ` (not
`None`) the floating check in `addChildren` is never reached and the
joint is inserted into the moving table — refuting the claim's
"regardless of the joint's kinematic type in the tree". -/
theorem C2_floating_excluded_counterexample :
    isFloatingInModel c2Model "j" = true ∧
    (lookupA "j" (addChildren c2Model c2Tree emptyTables).segments_).isSome
      = true :=
  ⟨by decide, by decide⟩

/-- A tree whose edge for joint "j" has KDL type `None`, as the URDF→KDL
conversion produces for floating joints. -/
def c2wTree : Tree :=
  .mk ⟨"base", ⟨"rootj", KDLJointType.None⟩, fun _ => 0⟩
    (.cons (.mk ⟨"l1", ⟨"j", KDLJointType.None⟩, fun _ => 1⟩ .nil) .nil)

/-- Witness for the amended C2: the fixed-table absence unconditionally
(also at the counterexample tree, whose "j" edge is `RotZ`-typed), and
the moving-table absence with the all-edges-`None` side condition
discharged at `c2wTree`. -/
theorem C2_floating_excluded_amended_witness :
    isFloatingInModel c2Model "j" = true ∧
    lookupA "j" (addChildren c2Model c2Tree emptyTables).segments_fixed_
      = Option.none ∧
    lookupA "j" (addChildren c2Model c2wTree emptyTables).segments_fixed_
      = Option.none ∧
    (∀ e ∈ edgesT c2wTree, edgeName e = "j" →
      e.child.joint.type = KDLJointType.None) ∧
    lookupA "j" (addChildren c2Model c2wTree emptyTables).segments_
      = Option.none :=
  ⟨by decide,
   (C2_floating_excluded_amended c2Model c2Tree "j" (by decide)).1,
   (C2_floating_excluded_amended c2Model c2wTree "j" (by decide)).1,
   by decide,
   (C2_floating_excluded_amended c2Model c2wTree "j" (by decide)).2 (by decide)⟩

end RSP
